import Mathlib

/-!
Shallow embedding of the demo-parselov runtime (hoehrmann/demo-parselov).

The repository carries two shapes of the data-driven parser pipeline:

* the `g.states` shape in `demo-parselov.js` (and the unnamed older copy):
  a single state table holding `transitions`, `is_accepting`,
  `backward_start`, `intersections` and `terminal_edges`, with the backward
  automaton started from `states[fstate].backward_start` and run over the
  reversed symbol stream;
* the later `g.forwards` / `g.backwards` shape shown in the README code
  (the shape §9 of the specification adopts): two separate automata, the
  backward one started from state `1` and run over the reversed forward
  state trace, with `|| 0` defaults on transition lookups.

Both shapes are embedded below.  JavaScript arrays are modeled as `List`s;
an indexing expression `a[i]` that the source guards with `|| 0` is modeled
as `List.getD i 0`, and table lookups at absent state or vertex ids are
modeled with a default record whose fields are the JavaScript falsy values
(empty table, `false`, `0`), matching how the bundled data files provide
dense tables.  The backtracking resolver of
`generate_json_formatted_parse_tree` is embedded with an explicit frontier
list and step function; the `while` loop is run on fuel because the source
loop need not terminate.  The resolver's successor lookups are embedded
twice: a total variant for runs that stay inside the edge-set list, and an
error-aware variant (`sortedSuccsE`, `stepParserE`, `loopFrontierE`) in
which `edges[p.offset]` and the edge-table lookups are partial, so that an
offset one past the last edge set reproduces the TypeError the source
throws there instead of defaulting.
-/

namespace Parselov

/-- JavaScript values relevant to `forwards.indexOf('0')`: the forward
state trace holds numbers, while the needle is the string literal `'0'`.
`Array.prototype.indexOf` uses strict equality, which never identifies a
number with a string. -/
inductive JsVal where
  | num : Int → JsVal
  | str : String → JsVal
  deriving DecidableEq, Repr

/-- Strict equality (`===`) on the fragment of JavaScript values used
here: values of different runtime type are never strictly equal. -/
def jsStrictEq : JsVal → JsVal → Bool
  | JsVal.num a, JsVal.num b => a == b
  | JsVal.str a, JsVal.str b => a == b
  | _, _ => false

/-- `Array.prototype.indexOf`: first index whose element is strictly
equal to the needle, `-1` when there is none. -/
def jsIndexOf (l : List JsVal) (x : JsVal) : Int :=
  match l.findIdx? (fun y => jsStrictEq y x) with
  | some i => (i : Int)
  | none => -1

/-- The `v || 0` idiom on an optional numeric field: an absent value and
an explicit `0` both yield `0`. -/
def jsOr0 : Option Nat → Nat
  | none => 0
  | some n => n

end Parselov

namespace Parselov.FB

/-- One state of the later-shape automata (`g.forwards[q]` or
`g.backwards[q]` in the README code): a transition table indexed by the
input alphabet and an `accepts` flag (the source tests `accepts == "0"`
for rejection, i.e. `accepts` is a boolean in disguise). -/
structure FState where
  transitions : List Nat
  accepts : Bool
  deriving DecidableEq, Repr

/-- The state used when the source indexes the automaton array outside
its range: no transitions, not accepting. -/
def emptyFState : FState := { transitions := [], accepts := false }

/-- Later-shape data file: `input_to_symbol`, `forwards` and `backwards`
(the parts the two finite-state passes consume). -/
structure FBData where
  input_to_symbol : List Nat
  forwards : List FState
  backwards : List FState
  deriving DecidableEq, Repr

/-- `g.forwards[fstate].transitions[i] || 0` from the README code: a
missing transition entry yields `0`. -/
def fstep (g : FBData) (q a : Nat) : Nat :=
  (g.forwards.getD q emptyFState).transitions.getD a 0

/-- `g.backwards[bstate].transitions[i] || 0` from the README code. -/
def bstep (g : FBData) (q a : Nat) : Nat :=
  (g.backwards.getD q emptyFState).transitions.getD a 0

/-- The forward state trace from a given state: the source builds
`[fstate].concat(s.map(...))`, keeping every intermediate state and not
stopping at the sink state `0`. -/
def fwdFrom (g : FBData) : Nat → List Nat → List Nat
  | q, [] => [q]
  | q, a :: rest => q :: fwdFrom g (fstep g q a) rest

/-- `var fstate = 1; var forwards = [fstate].concat(s.map(...))`. -/
def forwardStates (g : FBData) (syms : List Nat) : List Nat :=
  fwdFrom g 1 syms

/-- The final forward state (the value of the `fstate` variable after
the forward pass). -/
def lastState (g : FBData) (syms : List Nat) : Nat :=
  syms.foldl (fstep g) 1

/-- The outputs of `map` in the backward pass, in processing order: the
callback returns the state reached after each transition
(`return bstate = g.backwards[bstate].transitions[i] || 0`). -/
def bmapFrom (g : FBData) : Nat → List Nat → List Nat
  | _, [] => []
  | b, i :: rest => bstep g b i :: bmapFrom g (bstep g b i) rest

/-- `var bstate = 1; var edges = forwards.reverse().map(...).reverse();`
from the README code: the backward automaton starts in state `1`, runs
over the reversed forward state trace, and the emitted list is reversed
back into input order. -/
def edges (g : FBData) (fstates : List Nat) : List Nat :=
  (bmapFrom g 1 fstates.reverse).reverse

/-- The backward state consumed along a list, left to right (helper used
to characterise `edges` positionally). -/
def bconsume (g : FBData) (b : Nat) : List Nat → Nat
  | [] => b
  | i :: rest => bconsume g (bstep g b i) rest

/-- The sequence the specification's words describe for the backward
pass, built from the spec and not from the source: `b_n = 1`; for
`i = n, n-1, …, 1`, `b_{i-1} = backwards[b_i].transitions[forward_states[i]]`;
the emitted edge-set ID at position `i` is `b_i`.  So position `i` holds
the state reached after consuming `forward_states[n], …, forward_states[i+1]`
(and position `n` holds `1` itself). -/
def specEmit (g : FBData) (fstates : List Nat) : List Nat :=
  (List.range fstates.length).map
    (fun i => bconsume g 1 ((fstates.drop (i + 1)).reverse))

/-- The positional description of what the source actually emits:
position `i` holds the state reached after consuming
`forward_states[n], …, forward_states[i]` — one transition more than the
specification's `b_i`. -/
def codeEmit (g : FBData) (fstates : List Nat) : List Nat :=
  (List.range fstates.length).map
    (fun i => bconsume g 1 ((fstates.drop i).reverse))

end Parselov.FB

namespace Parselov.SP

/-- One state of `g.states` in `demo-parselov.js`: transition table,
accepting flag, the backward automaton start attached to accepting
states, the per-backward-state intersection table and the terminal edge
set. -/
structure SState where
  transitions : List Nat
  is_accepting : Bool
  backward_start : Nat
  intersections : List Nat
  terminal_edges : Nat
  deriving DecidableEq, Repr

/-- The state used when the source indexes `g.states` outside its range
(the bundled data files keep a dense array with a sentinel at 0). -/
def emptySState : SState :=
  { transitions := [], is_accepting := false, backward_start := 0,
    intersections := [], terminal_edges := 0 }

/-- One vertex record of `g.vertices`.  A missing `type` or `text` is
modeled as `""` (the JavaScript comparisons `== "start"` / `== "final"`
are false on `undefined`); missing `with` and `sort_key` are `none`. -/
structure Vertex where
  type : String
  text : String
  with_ : Option Nat
  sort_key : Option Nat
  deriving DecidableEq, Repr

/-- The vertex used when `g.vertices` is indexed outside its range. -/
def emptyVertex : Vertex :=
  { type := "", text := "", with_ := none, sort_key := none }

/-- The `g.states`-shape data file of `demo-parselov.js`.  Edge lists
may contain `null` entries (the source filters with `e && …`), modeled
as `none`. -/
structure SPData where
  input_to_symbol : List Nat
  states : List SState
  intersections : List (List Nat)
  vertices : List Vertex
  null_edges : List (List (Option (Nat × Nat)))
  char_edges : List (List (Option (Nat × Nat)))
  start_vertex : Nat
  final_vertex : Nat
  deriving DecidableEq, Repr

/-- `g.input_to_symbol[ch.charCodeAt(0)] || 0`: out-of-range code
points and explicit zero entries both give the sink symbol `0`. -/
def code_point_to_symbol (g : SPData) (c : Nat) : Nat :=
  g.input_to_symbol.getD c 0

/-- `var s = [].map.call(input, …)`: the symbol stream of an input,
given as the list of its code points. -/
def symbols (g : SPData) (input : List Nat) : List Nat :=
  input.map (code_point_to_symbol g)

/-- `g.states[fstate].transitions[i]`: one forward transition (the
bundled tables are dense; out-of-range lookups are modeled as `0`). -/
def sstep (g : SPData) (q a : Nat) : Nat :=
  (g.states.getD q emptySState).transitions.getD a 0

/-- The forward state trace from a given state, keeping every
intermediate state and not stopping at the sink state `0`. -/
def fwdFrom (g : SPData) : Nat → List Nat → List Nat
  | q, [] => [q]
  | q, a :: rest => q :: fwdFrom g (sstep g q a) rest

/-- `var fstate = 1; var forwards = [fstate].concat(s.map(...));`. -/
def forwardStates (g : SPData) (syms : List Nat) : List Nat :=
  fwdFrom g 1 syms

/-- The value of the `fstate` variable after the forward pass. -/
def lastState (g : SPData) (syms : List Nat) : Nat :=
  syms.foldl (sstep g) 1

/-- `g.states[fstate].is_accepting` after the forward pass. -/
def accepted (g : SPData) (syms : List Nat) : Bool :=
  (g.states.getD (lastState g syms) emptySState).is_accepting

/-- `!g.states[fstate].is_accepting`: the guard of the failure branch
in `demo-parselov.js` (lines 43–46). -/
def rejected (g : SPData) (syms : List Nat) : Bool :=
  !(accepted g syms)

/-- The integer the failure branch interpolates into
`"failed around " + forwards.indexOf('0')`: an `indexOf` of the string
`'0'` over the numeric forward state trace. -/
def failMessageIndex (g : SPData) (syms : List Nat) : Int :=
  jsIndexOf ((forwardStates g syms).map (fun n => JsVal.num (n : Int)))
    (JsVal.str "0")

/-- Modelled from the spec: `first_bad_index` is the smallest `i` such
that `forward_states[i] = 0` — the offset the failure message is
supposed to report. -/
def firstSinkIndex (g : SPData) (syms : List Nat) : Option Nat :=
  (forwardStates g syms).findIdx? (fun q => q == 0)

/-- The outputs of `map` in the backward pass of `demo-parselov.js`, in
processing order (`return bstate = g.states[bstate].transitions[i];`
over the reversed symbol stream). -/
def bmapFrom (g : SPData) : Nat → List Nat → List Nat
  | _, [] => []
  | b, i :: rest => sstep g b i :: bmapFrom g (sstep g b i) rest

/-- `var bstate = g.states[fstate].backward_start;
var backwards = s.reverse().map(...);` followed by the
`backwards.reverse()` in the `intersections` computation: the backward
state trace in input order. -/
def backwardsList (g : SPData) (syms : List Nat) : List Nat :=
  (bmapFrom g
    ((g.states.getD (lastState g syms) emptySState).backward_start)
    syms.reverse).reverse

/-- `g.states[forwards[ix]].intersections[bck] || 0` over the backward
trace. -/
def intersectionsList (g : SPData) (syms : List Nat) : List Nat :=
  List.zipWith
    (fun fs bs => (g.states.getD fs emptySState).intersections.getD bs 0)
    (forwardStates g syms) (backwardsList g syms)

/-- `var edges = intersections.map(function(ins, ix) \x7b return
g.intersections[ins][s[ix]]; \x7d).concat([g.states[fstate].terminal_edges]);`
— the edge-set ID list handed to the resolvers. -/
def edges (g : SPData) (input : List Nat) : List Nat :=
  (List.zipWith
    (fun ins a => (g.intersections.getD ins []).getD a 0)
    (intersectionsList g (symbols g input)) (symbols g input))
  ++ [(g.states.getD (lastState g (symbols g input)) emptySState).terminal_edges]

/-- `g.vertices[v]` with the dense-table default. -/
def vtx (g : SPData) (v : Nat) : Vertex :=
  g.vertices.getD v emptyVertex

end Parselov.SP

namespace Parselov.BT

open Parselov.SP

/-- One append to the `output` string of a parser: an opening
`[name, [` fragment for a `start` vertex, or the closing
`], start, end],` fragment for a matched `final` vertex.  The JavaScript
string is a rendering of this event list (indentation, JSON escaping of
the name with `,` as `,`, and the final cleanup `replace` calls);
the claims under verification only depend on the event structure. -/
inductive OEvent where
  | openF (text : String)
  | closeF (startOffset endOffset : Nat)
  deriving DecidableEq, Repr

/-- One element of the `parsers` frontier array.  The `stack` of
`{vertex, offset}` frames is modeled with the most recent frame at the
head (the source pushes and pops at the array end); nothing in the
source reads a frame other than the top one. -/
structure Parser where
  output : List OEvent
  offset : Nat
  vertex : Nat
  stack : List (Nat × Nat)
  deriving DecidableEq, Repr

/-- The `type == "start"` block: push `(vertex, offset)` and emit the
opening fragment tagged with the vertex text. -/
def pushStart (g : SPData) (p : Parser) : Parser :=
  if (vtx g p.vertex).type = "start" then
    { p with
      stack := (p.vertex, p.offset) :: p.stack,
      output := p.output ++ [OEvent.openF (vtx g p.vertex).text] }
  else p

/-- The `type == "final"` block: on an empty stack the parser is
discarded (`none`); otherwise the top frame is popped and the parser is
discarded unless the frame's `start` vertex has `with` equal to the
current vertex, in which case the frame is closed annotated with the
frame's offset and the current offset. -/
def closeFinal (g : SPData) (p : Parser) : Option Parser :=
  if (vtx g p.vertex).type = "final" then
    match p.stack with
    | [] => none
    | top :: rest =>
      if (vtx g top.1).with_ = some p.vertex then
        some { p with
          stack := rest,
          output := p.output ++ [OEvent.closeF top.2 p.offset] }
      else none
  else some p

/-- The `start`/`final` handling at the head of each loop iteration, in
source order. -/
def stepPhase1 (g : SPData) (p : Parser) : Option Parser :=
  closeFinal g (pushStart g p)

/-- Whether a successor was taken from `null_edges` (no input consumed)
or from `char_edges` (moves to the next edge set). -/
inductive SuccKind where
  | nullE
  | charE
  deriving DecidableEq, Repr

/-- One gathered successor (`{ successor: e[1], type: … }`). -/
structure Succ where
  successor : Nat
  type : SuccKind
  deriving DecidableEq, Repr

/-- `g.char_edges[edges[p.offset]].filter(e => e && e[0] == p.vertex)
.map(e => ({successor: e[1], type: "char"}))`. -/
def charSuccs (g : SPData) (edges : List Nat) (p : Parser) : List Succ :=
  (((g.char_edges.getD (edges.getD p.offset 0) []).filterMap id).filter
      (fun e => e.1 == p.vertex)).map
    (fun e => { successor := e.2, type := SuccKind.charE })

/-- The same for `g.null_edges[edges[p.offset]]`. -/
def nullSuccs (g : SPData) (edges : List Nat) (p : Parser) : List Succ :=
  (((g.null_edges.getD (edges.getD p.offset 0) []).filterMap id).filter
      (fun e => e.1 == p.vertex)).map
    (fun e => { successor := e.2, type := SuccKind.nullE })

/-- `g.vertices[s.successor].sort_key || 0`. -/
def succKey (g : SPData) (s : Succ) : Nat :=
  jsOr0 (vtx g s.successor).sort_key

/-- The comparison the sort callback
`(a, b) => sort_key(a) - sort_key(b)` induces. -/
def keyLe (g : SPData) : Succ → Succ → Prop :=
  fun a b => succKey g a ≤ succKey g b

instance keyLeDecidable (g : SPData) : DecidableRel (keyLe g) :=
  fun a b => Nat.decLe (succKey g a) (succKey g b)

/-- The tie-break order the claim asserts for equal sort keys: a null
successor may precede anything, a char successor may only be preceded
by a null successor or followed by a char successor — i.e. never a
char successor before a null successor. -/
def tieNull (a b : Succ) : Prop :=
  a.type = SuccKind.nullE ∨ b.type = SuccKind.charE

/-- The order the sorted successor list satisfies: ascending sort keys,
and on equal keys null successors before char successors. -/
def keyOrd (g : SPData) (a b : Succ) : Prop :=
  succKey g a ≤ succKey g b ∧ (succKey g a = succKey g b → tieNull a b)

/-- `var successors = ns.concat(cs); successors.sort(…)`: null
successors listed first, then the stable ascending sort by `sort_key`
(`Array.prototype.sort` is stable, modeled by insertion sort). -/
def sortedSuccs (g : SPData) (edges : List Nat) (p : Parser) : List Succ :=
  List.insertionSort (keyLe g) (nullSuccs g edges p ++ charSuccs g edges p)

/-- Result of one iteration of the `while` loop on the head parser. -/
inductive StepRes where
  | accept (out : List OEvent)
  | discard
  | cont (p : Parser) (spawned : List Parser)
  deriving DecidableEq, Repr

/-- One full iteration of the `while` loop body on the head parser:
`start`/`final` handling, the acceptance test
(`final_vertex` reached, `offset + 1 >= edges.length`, empty stack),
then successor gathering, sorting, choice and spawning. -/
def stepParser (g : SPData) (edges : List Nat) (p : Parser) : StepRes :=
  match stepPhase1 g p with
  | none => StepRes.discard
  | some p1 =>
    if p1.vertex = g.final_vertex ∧ edges.length ≤ p1.offset + 1 ∧ p1.stack = []
    then StepRes.accept p1.output
    else
      match sortedSuccs g edges p1 with
      | [] => StepRes.discard
      | chosen :: others =>
        StepRes.cont
          { p1 with
            offset := if chosen.type = SuccKind.charE then p1.offset + 1 else p1.offset,
            vertex := chosen.successor }
          (others.map (fun s =>
            { output := p1.output,
              offset := if s.type = SuccKind.charE then p1.offset + 1 else p1.offset,
              vertex := s.successor,
              stack := p1.stack }))

/-- Result of the whole search: a parse tree output, the frontier
emptied without acceptance (the source's `while` loop falls through and
the function returns without a tree — the `NoParse` failure), or the
fuel bound was reached (the source loop has no such bound and simply
keeps running). -/
inductive RunRes where
  | found (out : List OEvent)
  | noParse
  | outOfFuel
  deriving DecidableEq, Repr

/-- The `while (parsers.length)` loop: the head parser is stepped; a
discarded head is `shift`ed away; a continuing head stays in front with
its spawned alternatives appended after the existing tail. -/
def loopFrontier (g : SPData) (edges : List Nat) : Nat → List Parser → RunRes
  | 0, _ => RunRes.outOfFuel
  | _ + 1, [] => RunRes.noParse
  | fuel + 1, p :: rest =>
    match stepParser g edges p with
    | StepRes.accept out => RunRes.found out
    | StepRes.discard => loopFrontier g edges fuel rest
    | StepRes.cont q spawned => loopFrontier g edges fuel (q :: (rest ++ spawned))

/-- The initial frontier element
`{output: "", offset: 0, vertex: g.start_vertex, stack: []}`. -/
def initParser (g : SPData) : Parser :=
  { output := [], offset := 0, vertex := g.start_vertex, stack := [] }

/-- `generate_json_formatted_parse_tree`, run on fuel. -/
def runResolver (g : SPData) (edges : List Nat) (fuel : Nat) : RunRes :=
  loopFrontier g edges fuel [initParser g]

/-- Error-aware variant of `charSuccs`: `edges[p.offset]` is `undefined`
once the offset runs past the last edge set (the source has no bound
check), and `g.char_edges[undefined].filter` then throws a TypeError;
likewise for an edge-set ID outside the `char_edges` table.  `none`
marks the thrown error. -/
def charSuccsE (g : SPData) (edges : List Nat) (p : Parser) :
    Option (List Succ) :=
  match edges[p.offset]? with
  | none => none
  | some eid =>
    match g.char_edges[eid]? with
    | none => none
    | some l =>
      some (((l.filterMap (fun x => x)).filter
          (fun pr => pr.1 == p.vertex)).map
        (fun pr => { successor := pr.2, type := SuccKind.charE }))

/-- Error-aware variant of `nullSuccs` (same undefined-lookup error
paths as `charSuccsE`). -/
def nullSuccsE (g : SPData) (edges : List Nat) (p : Parser) :
    Option (List Succ) :=
  match edges[p.offset]? with
  | none => none
  | some eid =>
    match g.null_edges[eid]? with
    | none => none
    | some l =>
      some (((l.filterMap (fun x => x)).filter
          (fun pr => pr.1 == p.vertex)).map
        (fun pr => { successor := pr.2, type := SuccKind.nullE }))

/-- Error-aware successor gathering and sorting: a TypeError in either
lookup aborts the iteration. -/
def sortedSuccsE (g : SPData) (edges : List Nat) (p : Parser) :
    Option (List Succ) :=
  match nullSuccsE g edges p, charSuccsE g edges p with
  | some ns, some cs => some (List.insertionSort (keyLe g) (ns ++ cs))
  | _, _ => none

/-- Result of one loop iteration in the error-aware embedding: `crash`
is the thrown TypeError. -/
inductive StepResE where
  | accept (out : List OEvent)
  | discard
  | cont (p : Parser) (spawned : List Parser)
  | crash
  deriving DecidableEq, Repr

/-- One iteration of the `while` loop body in the error-aware
embedding; identical to `stepParser` except that an undefined edge-set
lookup crashes instead of defaulting. -/
def stepParserE (g : SPData) (edges : List Nat) (p : Parser) : StepResE :=
  match stepPhase1 g p with
  | none => StepResE.discard
  | some p1 =>
    if p1.vertex = g.final_vertex ∧ edges.length ≤ p1.offset + 1 ∧ p1.stack = []
    then StepResE.accept p1.output
    else
      match sortedSuccsE g edges p1 with
      | none => StepResE.crash
      | some [] => StepResE.discard
      | some (chosen :: others) =>
        StepResE.cont
          { p1 with
            offset := if chosen.type = SuccKind.charE then p1.offset + 1 else p1.offset,
            vertex := chosen.successor }
          (others.map (fun s =>
            { output := p1.output,
              offset := if s.type = SuccKind.charE then p1.offset + 1 else p1.offset,
              vertex := s.successor,
              stack := p1.stack }))

/-- Result of the whole search in the error-aware embedding. -/
inductive RunResE where
  | found (out : List OEvent)
  | noParse
  | outOfFuel
  | crash
  deriving DecidableEq, Repr

/-- The `while (parsers.length)` loop in the error-aware embedding:
an uncaught TypeError in the head iteration aborts the whole run. -/
def loopFrontierE (g : SPData) (edges : List Nat) : Nat → List Parser → RunResE
  | 0, _ => RunResE.outOfFuel
  | _ + 1, [] => RunResE.noParse
  | fuel + 1, p :: rest =>
    match stepParserE g edges p with
    | StepResE.accept out => RunResE.found out
    | StepResE.crash => RunResE.crash
    | StepResE.discard => loopFrontierE g edges fuel rest
    | StepResE.cont q spawned => loopFrontierE g edges fuel (q :: (rest ++ spawned))

/-- `generate_json_formatted_parse_tree` in the error-aware embedding,
run on fuel. -/
def runResolverE (g : SPData) (edges : List Nat) (fuel : Nat) : RunResE :=
  loopFrontierE g edges fuel [initParser g]

/-- The frontier left after `k` completed loop iterations (`none` when
the loop already returned — by acceptance, by a crash, or because the
frontier was empty).  Used to state when the resolver reports the
`NoParse` failure. -/
def frontierAfter (g : SPData) (edges : List Nat) :
    Nat → List Parser → Option (List Parser)
  | 0, front => some front
  | _ + 1, [] => none
  | k + 1, p :: rest =>
    match stepParserE g edges p with
    | StepResE.accept _ => none
    | StepResE.crash => none
    | StepResE.discard => frontierAfter g edges k rest
    | StepResE.cont q spawned => frontierAfter g edges k (q :: (rest ++ spawned))

end Parselov.BT

namespace Parselov.Ex

open Parselov.FB Parselov.SP Parselov.BT

/-- A minimal later-shape data file on which the specification's
backward-pass indexing and the code's differ already on empty input:
`backwards[1].transitions[1] = 5`, so the code emits `[5]` where the
specification's `b_0 = b_n = 1` predicts `[1]`. -/
def cexFB : FBData :=
  { input_to_symbol := [],
    forwards := [emptyFState, { transitions := [], accepts := true }],
    backwards := [emptyFState, { transitions := [0, 5], accepts := false }] }

/-- A minimal `g.states`-shape data file whose only input transition
leads to the sink: state `1` maps symbol `0` to state `0`, and state
`0` is not accepting. -/
def bugSP : SPData :=
  { input_to_symbol := [],
    states := [emptySState,
      { transitions := [0], is_accepting := true, backward_start := 0,
        intersections := [], terminal_edges := 0 }],
    intersections := [], vertices := [], null_edges := [], char_edges := [],
    start_vertex := 0, final_vertex := 0 }

/-- A data file whose edge set `0` holds the single null edge
`1 → 1` on an untyped vertex: the backtracking resolver's head parser
steps from itself to itself forever. -/
def loopSP : SPData :=
  { input_to_symbol := [], states := [], intersections := [],
    vertices := [emptyVertex, emptyVertex, emptyVertex],
    null_edges := [[some (1, 1)]], char_edges := [[]],
    start_vertex := 1, final_vertex := 2 }

/-- The edge-set ID list fed to the resolver in the loop example. -/
def loopEdges : List Nat := [0]

/-- A data file for the `final`-vertex witness: vertex `2` is a `start`
with `with = 3`, vertex `3` is the matching `final`. -/
def pairSP : SPData :=
  { input_to_symbol := [], states := [], intersections := [],
    vertices := [emptyVertex, emptyVertex,
      { type := "start", text := "A", with_ := some 3, sort_key := none },
      { type := "final", text := "A", with_ := none, sort_key := none }],
    null_edges := [[]], char_edges := [[]],
    start_vertex := 2, final_vertex := 3 }

/-- A parser sitting on the `final` vertex `3` with the matching
`start` frame on its stack. -/
def pairParser : Parser :=
  { output := [], offset := 1, vertex := 3, stack := [(2, 0)] }

/-- A data file for the spawning witness: edge set `0` holds two null
edges out of vertex `1`, so the head continues with one successor and
spawns one alternative. -/
def forkSP : SPData :=
  { input_to_symbol := [], states := [], intersections := [],
    vertices := [emptyVertex, emptyVertex, emptyVertex, emptyVertex],
    null_edges := [[some (1, 2), some (1, 3)]], char_edges := [[]],
    start_vertex := 1, final_vertex := 0 }

/-- The edge-set ID list fed to the resolver in the fork example. -/
def forkEdges : List Nat := [0]

/-- A data file on which the initial parser is immediately accepted:
the start vertex is also the final vertex, the single edge set is
empty, and the stack is empty. -/
def accSP : SPData :=
  { input_to_symbol := [], states := [], intersections := [],
    vertices := [emptyVertex, emptyVertex],
    null_edges := [[]], char_edges := [[]],
    start_vertex := 1, final_vertex := 1 }

/-- The edge-set ID list fed to the resolver in the acceptance
example. -/
def accEdges : List Nat := [0]

/-- A data file whose single (hence last) edge set holds the char edge
`1 -> 2`: taking it advances the offset to `1`, one past the last edge
set, and the next iteration's `edges[p.offset]` lookup is undefined —
the source throws a TypeError there. -/
def crashSP : SPData :=
  { input_to_symbol := [], states := [], intersections := [],
    vertices := [emptyVertex, emptyVertex, emptyVertex],
    null_edges := [[]], char_edges := [[some (1, 2)]],
    start_vertex := 1, final_vertex := 0 }

/-- The edge-set ID list fed to the resolver in the crash example. -/
def crashEdges : List Nat := [0]

end Parselov.Ex

namespace Parselov.FB

theorem bconsume_append (g : FBData) (b : Nat) (xs : List Nat) (a : Nat) :
    bconsume g b (xs ++ [a]) = bstep g (bconsume g b xs) a := by
  induction xs generalizing b with
  | nil => rfl
  | cons x xs ih => simpa [bconsume] using ih (bstep g b x)

theorem bmapFrom_append (g : FBData) (b : Nat) (xs : List Nat) (a : Nat) :
    bmapFrom g b (xs ++ [a]) = bmapFrom g b xs ++ [bconsume g b (xs ++ [a])] := by
  induction xs generalizing b with
  | nil => rfl
  | cons x xs ih => simpa [bmapFrom, bconsume] using ih (bstep g b x)

theorem codeEmit_cons (g : FBData) (a : Nat) (rest : List Nat) :
    codeEmit g (a :: rest) =
      bconsume g 1 (rest.reverse ++ [a]) :: codeEmit g rest := by
  simp only [codeEmit, List.length_cons, List.range_succ_eq_map, List.map_cons,
    List.map_map]
  congr 1
  simp

theorem edges_eq_codeEmit (g : FBData) (fstates : List Nat) :
    edges g fstates = codeEmit g fstates := by
  induction fstates with
  | nil => rfl
  | cons a rest ih =>
    have h1 : edges g (a :: rest) =
        bconsume g 1 (rest.reverse ++ [a]) :: edges g rest := by
      simp [edges, bmapFrom_append]
    rw [h1, ih, codeEmit_cons]

theorem edges_length (g : FBData) (fstates : List Nat) :
    (edges g fstates).length = fstates.length := by
  rw [edges_eq_codeEmit]
  simp [codeEmit]

theorem fwdFrom_length (g : FBData) (q : Nat) (syms : List Nat) :
    (fwdFrom g q syms).length = syms.length + 1 := by
  induction syms generalizing q with
  | nil => rfl
  | cons a rest ih => simp [fwdFrom, ih]

theorem fwdFrom_getD_zero (g : FBData) (q : Nat) (syms : List Nat) :
    (fwdFrom g q syms).getD 0 0 = q := by
  cases syms <;> rfl

theorem fwdFrom_recurrence (g : FBData) (q : Nat) (syms : List Nat) :
    ∀ i, i < syms.length →
      (fwdFrom g q syms).getD (i + 1) 0
        = fstep g ((fwdFrom g q syms).getD i 0) (syms.getD i 0) := by
  induction syms generalizing q with
  | nil => intro i h; cases h
  | cons a rest ih =>
    intro i hi
    cases i with
    | zero =>
      show (q :: fwdFrom g (fstep g q a) rest).getD 1 0
        = fstep g ((q :: fwdFrom g (fstep g q a) rest).getD 0 0)
            ((a :: rest).getD 0 0)
      rw [List.getD_cons_succ, List.getD_cons_zero, List.getD_cons_zero,
        fwdFrom_getD_zero]
    | succ j =>
      have hj : j < rest.length := by simpa using hi
      show (q :: fwdFrom g (fstep g q a) rest).getD (j + 2) 0
        = fstep g ((q :: fwdFrom g (fstep g q a) rest).getD (j + 1) 0)
            ((a :: rest).getD (j + 1) 0)
      rw [List.getD_cons_succ, List.getD_cons_succ, List.getD_cons_succ]
      exact ih (fstep g q a) j hj

end Parselov.FB

namespace Parselov

open Parselov.FB Parselov.Ex

/-- Claim C1, counterexample: on the empty input over `cexFB` the
backward pass of the README code emits `[backwards[1].transitions[1]]
= [5]`, while the claim's recurrence (`b_n = 1`, emitted at position
`i` is `b_i`) predicts `[b_0] = [1]`: the code's emitted entry at a
position is the state one transition later than the claim says. -/
theorem C1_counterexample :
    FB.edges cexFB (FB.forwardStates cexFB []) ≠
      FB.specEmit cexFB (FB.forwardStates cexFB []) := by
  decide

/-- Claim C1, amended: the backward pass starts in state `1` and runs
right-to-left over the whole forward state trace (one transition per
trace entry, including `forward_states[0]`), and the edge-set ID
emitted at position `i` is the state reached after the transition on
`forward_states[i]` — the claim's `b_{i-1}` rather than `b_i`. -/
theorem C1_backward_pass_amended (g : FBData) (fstates : List Nat) :
    FB.edges g fstates = FB.codeEmit g fstates ∧
    (FB.edges g fstates).length = fstates.length := by
  exact ⟨edges_eq_codeEmit g fstates, edges_length g fstates⟩

/-- Claim C2: the forward pass starts with `forward_states[0] = 1`,
computes each subsequent state by
`forwards[s_i].transitions[symbols[i]]` with a missing transition entry
treated as `0`, and does not short-circuit on state `0`: the trace has
length `n + 1`. -/
theorem C2_forward_pass (g : FBData) (syms : List Nat) :
    (FB.forwardStates g syms).length = syms.length + 1 ∧
    (FB.forwardStates g syms).head? = some 1 ∧
    (∀ i, i < syms.length →
      (FB.forwardStates g syms).getD (i + 1) 0
        = FB.fstep g ((FB.forwardStates g syms).getD i 0) (syms.getD i 0)) ∧
    (∀ q a, (g.forwards.getD q FB.emptyFState).transitions.length ≤ a →
      FB.fstep g q a = 0) := by
  refine ⟨fwdFrom_length g 1 syms, ?_, fwdFrom_recurrence g 1 syms, ?_⟩
  · unfold FB.forwardStates
    cases syms <;> rfl
  · intro q a ha
    exact List.getD_eq_default _ _ ha

/-- Claim C2, witness: the recurrence and the missing-entry default
evaluated on the concrete data file `cexFB` and the symbol stream
`[0]`. -/
theorem C2_forward_pass_witness :
    (FB.forwardStates cexFB [0]).getD 1 0
      = FB.fstep cexFB ((FB.forwardStates cexFB [0]).getD 0 0) ([0].getD 0 0) ∧
    FB.fstep cexFB 0 7 = 0 := by
  refine ⟨(C2_forward_pass cexFB [0]).2.2.1 0 (by decide),
    (C2_forward_pass cexFB [0]).2.2.2 0 7 (by decide)⟩

end Parselov

namespace Parselov.SP

theorem bmapFrom_length (g : SPData) (b : Nat) (l : List Nat) :
    (bmapFrom g b l).length = l.length := by
  induction l generalizing b with
  | nil => rfl
  | cons a rest ih => simp [bmapFrom, ih]

theorem sp_fwdFrom_length (g : SPData) (q : Nat) (syms : List Nat) :
    (fwdFrom g q syms).length = syms.length + 1 := by
  induction syms generalizing q with
  | nil => rfl
  | cons a rest ih => simp [fwdFrom, ih]

theorem backwardsList_length (g : SPData) (syms : List Nat) :
    (backwardsList g syms).length = syms.length := by
  simp [backwardsList, bmapFrom_length]

theorem intersectionsList_length (g : SPData) (syms : List Nat) :
    (intersectionsList g syms).length = syms.length := by
  simp [intersectionsList, forwardStates, sp_fwdFrom_length, backwardsList_length]

theorem symbols_length (g : SPData) (input : List Nat) :
    (symbols g input).length = input.length := by
  simp [symbols]

theorem sp_edges_length (g : SPData) (input : List Nat) :
    (edges g input).length = input.length + 1 := by
  simp [edges, intersectionsList_length, symbols_length]

end Parselov.SP

namespace Parselov

open Parselov.SP Parselov.Ex

/-- Claim C8: for every run the edge-set ID list has length `n + 1`
with the terminal edge-set of the final forward state as its last
entry; on empty input the list is just the terminal edge-set of state
`1`, and the input is accepted iff state `1` accepts. -/
theorem C8_edge_ids (g : SPData) (input : List Nat) :
    (SP.edges g input).length = input.length + 1 ∧
    (SP.edges g input).getLast?
      = some ((g.states.getD (SP.lastState g (SP.symbols g input))
          SP.emptySState).terminal_edges) ∧
    SP.edges g [] = [(g.states.getD 1 SP.emptySState).terminal_edges] ∧
    SP.accepted g (SP.symbols g [])
      = (g.states.getD 1 SP.emptySState).is_accepting := by
  refine ⟨SP.sp_edges_length g input, ?_, rfl, rfl⟩
  unfold SP.edges
  exact List.getLast?_concat _

/-- Claim C9: the alphabet mapping sends out-of-range code points to
symbol `0`, and symbol `0` is produced iff the code point exceeds the
`input_to_symbol` table or its entry there is explicitly `0`. -/
theorem C9_alphabet (g : SPData) (c : Nat) :
    (g.input_to_symbol.length ≤ c → SP.code_point_to_symbol g c = 0) ∧
    (SP.code_point_to_symbol g c = 0 ↔
      g.input_to_symbol.length ≤ c ∨
      ∃ h : c < g.input_to_symbol.length, g.input_to_symbol.get ⟨c, h⟩ = 0) := by
  constructor
  · intro h
    exact List.getD_eq_default _ _ h
  · by_cases hc : c < g.input_to_symbol.length
    · have hg : SP.code_point_to_symbol g c = g.input_to_symbol.get ⟨c, hc⟩ := by
        simp [SP.code_point_to_symbol, List.getD, List.getElem?_eq_getElem hc]
      constructor
      · intro h0
        exact Or.inr ⟨hc, by rw [← hg]; exact h0⟩
      · intro h
        rcases h with h | ⟨_, h⟩
        · exact absurd hc (by omega)
        · rw [hg]; exact h
    · have hle : g.input_to_symbol.length ≤ c := by omega
      constructor
      · intro _
        exact Or.inl hle
      · intro _
        exact List.getD_eq_default _ _ hle

/-- Claim C9, witness: the out-of-range case evaluated on the concrete
data file `bugSP`, whose `input_to_symbol` table is empty. -/
theorem C9_alphabet_witness : SP.code_point_to_symbol bugSP 3 = 0 :=
  (C9_alphabet bugSP 3).1 (by decide)

/-- Claim C6: on the concrete rejected input the forward automaton
enters the sink at offset `1` and the resolver stage is skipped, but
the failure message interpolates `forwards.indexOf('0')`, which
compares the numeric states against the string `'0'` with strict
equality and is therefore `-1` — never the smallest sink offset.  The
final conjunct shows the message index is `-1` for every forward state
trace. -/
theorem C6_failure_offset_bug :
    SP.rejected bugSP (SP.symbols bugSP [0]) = true ∧
    SP.firstSinkIndex bugSP (SP.symbols bugSP [0]) = some 1 ∧
    SP.failMessageIndex bugSP (SP.symbols bugSP [0]) = -1 ∧
    ∀ l : List Nat,
      jsIndexOf (l.map (fun n => JsVal.num (n : Int))) (JsVal.str "0") = -1 := by
  refine ⟨by decide, by decide, by decide, ?_⟩
  intro l
  have h : (l.map (fun n => JsVal.num (n : Int))).findIdx?
      (fun y => jsStrictEq y (JsVal.str "0")) = none := by
    induction l with
    | nil => rfl
    | cons a rest ih => simp [List.findIdx?_cons, jsStrictEq, ih]
  simp only [jsIndexOf]
  rw [h]

end Parselov

namespace Parselov.BT

open Parselov.SP Parselov.Ex

theorem pushStart_vertex (g : SPData) (p : Parser) :
    (pushStart g p).vertex = p.vertex := by
  unfold pushStart
  split <;> rfl

theorem pushStart_offset (g : SPData) (p : Parser) :
    (pushStart g p).offset = p.offset := by
  unfold pushStart
  split <;> rfl

theorem closeFinal_fields (g : SPData) (q p1 : Parser)
    (h : closeFinal g q = some p1) :
    p1.vertex = q.vertex ∧ p1.offset = q.offset := by
  unfold closeFinal at h
  split at h
  · split at h
    · exact Option.noConfusion h
    · split at h
      · have h2 := Option.some.inj h
        exact ⟨by rw [← h2], by rw [← h2]⟩
      · exact Option.noConfusion h
  · have h2 := Option.some.inj h
    exact ⟨by rw [← h2], by rw [← h2]⟩

theorem stepPhase1_fields (g : SPData) (p p1 : Parser)
    (h : stepPhase1 g p = some p1) :
    p1.vertex = p.vertex ∧ p1.offset = p.offset := by
  unfold stepPhase1 at h
  have h2 := closeFinal_fields g (pushStart g p) p1 h
  rw [pushStart_vertex, pushStart_offset] at h2
  exact h2

theorem stepParser_accept (g : SPData) (edgeIds : List Nat) (p : Parser)
    (out : List OEvent) :
    stepParser g edgeIds p = StepRes.accept out ↔
      ∃ p1, stepPhase1 g p = some p1 ∧ p1.vertex = g.final_vertex ∧
        edgeIds.length ≤ p1.offset + 1 ∧ p1.stack = [] ∧ out = p1.output := by
  unfold stepParser
  cases hp : stepPhase1 g p with
  | none => simp
  | some p1 =>
    dsimp only
    by_cases hcond : p1.vertex = g.final_vertex ∧
        edgeIds.length ≤ p1.offset + 1 ∧ p1.stack = []
    · rw [if_pos hcond]
      constructor
      · intro h
        exact ⟨p1, rfl, hcond.1, hcond.2.1, hcond.2.2,
          (StepRes.accept.inj h).symm⟩
      · intro ⟨p1', hp1', _, _, _, hout⟩
        have hpp : p1 = p1' := Option.some.inj hp1'
        rw [hout, hpp]
    · rw [if_neg hcond]
      constructor
      · intro h
        cases hss : sortedSuccs g edgeIds p1 <;> rw [hss] at h <;>
          exact StepRes.noConfusion h
      · intro ⟨p1', hp1', h1, h2, h3, _⟩
        have hpp : p1 = p1' := Option.some.inj hp1'
        subst hpp
        exact absurd ⟨h1, h2, h3⟩ hcond

/-- Claim C3: one loop iteration returns the accumulated output exactly
when the parser's vertex is `final_vertex`, its `offset + 1` is at
least the length of the edge-set list (one past the last edge set), and
its stack — after the `start`/`final` handling of the same iteration —
is empty. -/
theorem C3_acceptance (g : SPData) (edgeIds : List Nat) (p : Parser)
    (out : List OEvent) :
    stepParser g edgeIds p = StepRes.accept out ↔
      (p.vertex = g.final_vertex ∧ edgeIds.length ≤ p.offset + 1 ∧
        ∃ p1, stepPhase1 g p = some p1 ∧ p1.stack = [] ∧ out = p1.output) := by
  rw [stepParser_accept]
  constructor
  · intro ⟨p1, hp, h1, h2, h3, h4⟩
    obtain ⟨hv, ho⟩ := stepPhase1_fields g p p1 hp
    refine ⟨?_, ?_, p1, hp, h3, h4⟩
    · rw [← hv]; exact h1
    · rw [← ho]; exact h2
  · intro ⟨h1, h2, p1, hp, h3, h4⟩
    obtain ⟨hv, ho⟩ := stepPhase1_fields g p p1 hp
    refine ⟨p1, hp, ?_, ?_, h3, h4⟩
    · rw [hv]; exact h1
    · rw [ho]; exact h2

/-- Claim C4: at a `final`-typed vertex the parser is discarded iff the
stack is empty or the popped top frame's `start` vertex has `with`
different from the current vertex; otherwise the top frame is popped
and closed annotated with the frame's offset and the current offset. -/
theorem C4_final_close (g : SPData) (p : Parser)
    (hf : (vtx g p.vertex).type = "final") :
    (stepPhase1 g p = none ↔
      p.stack = [] ∨
      ∃ top rest, p.stack = top :: rest ∧
        (vtx g top.1).with_ ≠ some p.vertex) ∧
    ∀ p1, stepPhase1 g p = some p1 →
      ∃ top rest, p.stack = top :: rest ∧
        (vtx g top.1).with_ = some p.vertex ∧
        p1.stack = rest ∧
        p1.output = p.output ++ [OEvent.closeF top.2 p.offset] ∧
        p1.vertex = p.vertex ∧ p1.offset = p.offset := by
  have hns : (vtx g p.vertex).type ≠ "start" := by rw [hf]; decide
  have hpush : pushStart g p = p := by unfold pushStart; rw [if_neg hns]
  unfold stepPhase1
  rw [hpush]
  unfold closeFinal
  rw [if_pos hf]
  cases hs : p.stack with
  | nil =>
    constructor
    · simp
    · intro p1 h
      exact Option.noConfusion h
  | cons top rest =>
    dsimp only
    by_cases hw : (vtx g top.1).with_ = some p.vertex
    · rw [if_pos hw]
      constructor
      · constructor
        · intro h
          exact Option.noConfusion h
        · intro hcase
          rcases hcase with hnil | ⟨top', rest', heq, hne⟩
          · exact List.noConfusion hnil
          · injection heq with ha hb
            subst ha
            exact absurd hw hne
      · intro p1 h
        have h2 := Option.some.inj h
        exact ⟨top, rest, rfl, hw, by rw [← h2], by rw [← h2],
          by rw [← h2], by rw [← h2]⟩
    · rw [if_neg hw]
      constructor
      · constructor
        · intro _
          exact Or.inr ⟨top, rest, rfl, hw⟩
        · intro _
          rfl
      · intro p1 h
        exact Option.noConfusion h

/-- Claim C4, witness: at the `final` vertex `3` of `pairSP` with the
matching `start` frame `(2, 0)` on the stack, the parser is not
discarded, and the discard condition evaluates as the claim states. -/
theorem C4_final_close_witness :
    stepPhase1 Ex.pairSP Ex.pairParser ≠ none ∧
    (stepPhase1 Ex.pairSP Ex.pairParser = none ↔
      Ex.pairParser.stack = [] ∨
      ∃ top rest, Ex.pairParser.stack = top :: rest ∧
        (vtx Ex.pairSP top.1).with_ ≠ some Ex.pairParser.vertex) := by
  exact ⟨by decide, (C4_final_close Ex.pairSP Ex.pairParser (by decide)).1⟩

theorem nullSuccs_type (g : SPData) (e : List Nat) (p : Parser) :
    ∀ s ∈ nullSuccs g e p, s.type = SuccKind.nullE := by
  intro s hs
  unfold nullSuccs at hs
  obtain ⟨e2, _, rfl⟩ := List.mem_map.mp hs
  rfl

theorem charSuccs_type (g : SPData) (e : List Nat) (p : Parser) :
    ∀ s ∈ charSuccs g e p, s.type = SuccKind.charE := by
  intro s hs
  unfold charSuccs at hs
  obtain ⟨e2, _, rfl⟩ := List.mem_map.mp hs
  rfl

theorem combined_tieNull (g : SPData) (e : List Nat) (p : Parser) :
    (nullSuccs g e p ++ charSuccs g e p).Pairwise tieNull := by
  rw [List.pairwise_append]
  refine ⟨?_, ?_, ?_⟩
  · exact List.pairwise_of_forall_mem_list
      (fun a ha _ _ => Or.inl (nullSuccs_type g e p a ha))
  · exact List.pairwise_of_forall_mem_list
      (fun _ _ b hb => Or.inr (charSuccs_type g e p b hb))
  · intro a ha b _
    exact Or.inl (nullSuccs_type g e p a ha)

theorem orderedInsert_keyOrd (g : SPData) (x : Succ) :
    ∀ l : List Succ, l.Pairwise (keyOrd g) → (∀ y ∈ l, tieNull x y) →
      (l.orderedInsert (keyLe g) x).Pairwise (keyOrd g) := by
  intro l
  induction l with
  | nil =>
    intro _ _
    simp [List.orderedInsert]
  | cons b t ih =>
    intro hpw hS
    obtain ⟨hb, ht⟩ := List.pairwise_cons.mp hpw
    rw [List.orderedInsert]
    by_cases hr : keyLe g x b
    · rw [if_pos hr]
      rw [List.pairwise_cons]
      refine ⟨?_, hpw⟩
      intro z hz
      rcases List.mem_cons.mp hz with rfl | hzt
      · exact ⟨hr, fun _ => hS z (List.mem_cons_self z t)⟩
      · refine ⟨le_trans hr (hb z hzt).1, ?_⟩
        intro _
        exact hS z (List.mem_cons_of_mem b hzt)
    · rw [if_neg hr]
      rw [List.pairwise_cons]
      refine ⟨?_, ih ht (fun y hy => hS y (List.mem_cons_of_mem b hy))⟩
      intro z hz
      rcases (List.mem_orderedInsert (keyLe g)).mp hz with rfl | hzt
      · have hlt : succKey g b < succKey g z := Nat.lt_of_not_le hr
        exact ⟨Nat.le_of_lt hlt, fun heq => absurd heq (Nat.ne_of_lt hlt)⟩
      · exact hb z hzt

theorem insertionSort_keyOrd (g : SPData) :
    ∀ l : List Succ, l.Pairwise tieNull →
      (l.insertionSort (keyLe g)).Pairwise (keyOrd g) := by
  intro l
  induction l with
  | nil =>
    intro _
    simp [List.insertionSort]
  | cons x t ih =>
    intro hpw
    obtain ⟨hx, ht⟩ := List.pairwise_cons.mp hpw
    rw [List.insertionSort]
    apply orderedInsert_keyOrd g x _ (ih ht)
    intro y hy
    exact hx y ((List.mem_insertionSort (keyLe g)).mp hy)

/-- Claim C5: every gathered successor list is sorted ascending by
`sort_key` (missing key treated as `0`), and on tied keys every null
successor precedes every char successor (the stable sort keeps the
source's null-before-char concatenation order). -/
theorem C5_successor_order (g : SPData) (edgeIds : List Nat) (p : Parser) :
    (sortedSuccs g edgeIds p).Pairwise (keyOrd g) := by
  unfold sortedSuccs
  exact insertionSort_keyOrd g _ (combined_tieNull g edgeIds p)

theorem stepFixE_outOfFuel (g : SPData) (e : List Nat) (p : Parser)
    (h : stepParserE g e p = StepResE.cont p []) :
    ∀ fuel, loopFrontierE g e fuel [p] = RunResE.outOfFuel := by
  intro fuel
  induction fuel with
  | zero => rfl
  | succ n ih =>
    show loopFrontierE g e (n + 1) [p] = RunResE.outOfFuel
    simp only [loopFrontierE, h]
    simpa using ih

/-- Claim C7, counterexample: the resolver neither terminates nor stays
free of runtime errors for every data file and edge-set list.  On
`loopSP`, whose single edge set holds the null self-edge `1 → 1` on an
untyped vertex, the run is still unfinished at every fuel bound, so it
never returns a parse tree or the `NoParse` failure; and on `crashSP`,
whose last edge set holds a char edge, taking that edge drives the
offset one past the end and the next iteration's
`g.char_edges[edges[p.offset]]` lookup is undefined — the thrown
TypeError, not a structured failure. -/
theorem C7_counterexample :
    (¬ ∃ fuel, runResolverE Ex.loopSP Ex.loopEdges fuel ≠ RunResE.outOfFuel) ∧
    runResolverE Ex.crashSP Ex.crashEdges 2 = RunResE.crash := by
  constructor
  · intro hex
    obtain ⟨fuel, hne⟩ := hex
    exact hne
      (stepFixE_outOfFuel Ex.loopSP Ex.loopEdges (initParser Ex.loopSP)
        (by decide) fuel)
  · decide

/-- Claim C7, amended: the resolver returns the `NoParse` failure
exactly when its frontier empties without acceptance — a fuel-bounded
run reports `NoParse` iff some number of completed loop iterations
within the bound leaves the frontier empty; termination and freedom
from runtime errors for every data file and edge-set list are not
claimed (the counterexample refutes both). -/
theorem C7_resolver_amended (g : SPData) (e : List Nat) :
    ∀ (fuel : Nat) (front : List Parser),
      loopFrontierE g e fuel front = RunResE.noParse ↔
        ∃ k, k < fuel ∧ frontierAfter g e k front = some [] := by
  intro fuel
  induction fuel with
  | zero =>
    intro front
    constructor
    · intro h
      exact RunResE.noConfusion h
    · intro ⟨k, hk, _⟩
      exact absurd hk (Nat.not_lt_zero k)
  | succ n ih =>
    intro front
    cases front with
    | nil =>
      constructor
      · intro _
        exact ⟨0, Nat.succ_pos n, rfl⟩
      · intro _
        rfl
    | cons p rest =>
      cases hstep : stepParserE g e p with
      | accept out =>
        constructor
        · intro h
          simp only [loopFrontierE, hstep] at h
          exact RunResE.noConfusion h
        · intro ⟨k, hk, hfa⟩
          cases k with
          | zero => simp [frontierAfter] at hfa
          | succ j =>
            simp only [frontierAfter, hstep] at hfa
            exact Option.noConfusion hfa
      | crash =>
        constructor
        · intro h
          simp only [loopFrontierE, hstep] at h
          exact RunResE.noConfusion h
        · intro ⟨k, hk, hfa⟩
          cases k with
          | zero => simp [frontierAfter] at hfa
          | succ j =>
            simp only [frontierAfter, hstep] at hfa
            exact Option.noConfusion hfa
      | discard =>
        constructor
        · intro h
          simp only [loopFrontierE, hstep] at h
          obtain ⟨k, hk, hfa⟩ := (ih rest).mp h
          refine ⟨k + 1, by omega, ?_⟩
          simp only [frontierAfter, hstep]
          exact hfa
        · intro ⟨k, hk, hfa⟩
          cases k with
          | zero => simp [frontierAfter] at hfa
          | succ j =>
            simp only [frontierAfter, hstep] at hfa
            simp only [loopFrontierE, hstep]
            exact (ih rest).mpr ⟨j, by omega, hfa⟩
      | cont q spawned =>
        constructor
        · intro h
          simp only [loopFrontierE, hstep] at h
          obtain ⟨k, hk, hfa⟩ := (ih (q :: (rest ++ spawned))).mp h
          refine ⟨k + 1, by omega, ?_⟩
          simp only [frontierAfter, hstep]
          exact hfa
        · intro ⟨k, hk, hfa⟩
          cases k with
          | zero => simp [frontierAfter] at hfa
          | succ j =>
            simp only [frontierAfter, hstep] at hfa
            simp only [loopFrontierE, hstep]
            exact (ih (q :: (rest ++ spawned))).mpr ⟨j, by omega, hfa⟩

/-- Claim C10: when the head parser continues and spawns alternatives,
every spawned parser records the stack and output values of the head at
spawn time (after this iteration's `start`/`final` handling), the
continuing head carries those same values, and the untouched tail of
the frontier is passed to the next iteration unchanged — so the queued
alternatives are unaffected by anything the head does later. -/
theorem C10_spawned_frames (g : SPData) (e : List Nat) (p q : Parser)
    (spawned rest : List Parser) (fuel : Nat)
    (h : stepParser g e p = StepRes.cont q spawned) :
    loopFrontier g e (fuel + 1) (p :: rest)
      = loopFrontier g e fuel (q :: (rest ++ spawned)) ∧
    ∀ s ∈ spawned, ∃ p1, stepPhase1 g p = some p1 ∧
      s.stack = p1.stack ∧ s.output = p1.output ∧
      q.stack = p1.stack ∧ q.output = p1.output := by
  constructor
  · simp only [loopFrontier, h]
  · unfold stepParser at h
    cases hp : stepPhase1 g p with
    | none =>
      rw [hp] at h
      exact StepRes.noConfusion h
    | some p1 =>
      rw [hp] at h
      dsimp only at h
      by_cases hcond : p1.vertex = g.final_vertex ∧
          e.length ≤ p1.offset + 1 ∧ p1.stack = []
      · rw [if_pos hcond] at h
        exact StepRes.noConfusion h
      · rw [if_neg hcond] at h
        cases hss : sortedSuccs g e p1 with
        | nil =>
          rw [hss] at h
          exact StepRes.noConfusion h
        | cons chosen others =>
          rw [hss] at h
          injection h with hq hsp
          intro s hs
          rw [← hsp] at hs
          obtain ⟨t, _, rfl⟩ := List.mem_map.mp hs
          exact ⟨p1, rfl, rfl, rfl, by rw [← hq], by rw [← hq]⟩

/-- Claim C10, witness: on `forkSP` the initial parser continues to
vertex `2` and spawns exactly the alternative at vertex `3` with the
spawn-time stack and output, appended after the (empty) tail. -/
theorem C10_spawned_frames_witness :
    loopFrontier Ex.forkSP Ex.forkEdges 1 [initParser Ex.forkSP]
      = loopFrontier Ex.forkSP Ex.forkEdges 0
        ({ output := [], offset := 0, vertex := 2, stack := [] } ::
          ([] ++ [{ output := [], offset := 0, vertex := 3, stack := [] }])) :=
  (C10_spawned_frames Ex.forkSP Ex.forkEdges (initParser Ex.forkSP)
    { output := [], offset := 0, vertex := 2, stack := [] }
    [{ output := [], offset := 0, vertex := 3, stack := [] }] [] 0
    (by decide)).1

end Parselov.BT
